import Mathlib

/-!
Shallow embedding of `signalform/util.go`: the resource lifecycle operations
(`sendRequest`, `resourceRead`, `resourceCreate`, `resourceDelete`), the
relative time-range parser `fromRangeToMilliSeconds`, the pattern validator
`validateSignalfxRelativeTime` and the color-scale option builder
`getColorScaleOptions`, together with theorems about them.

Embedding conventions: the Go `float64` timestamps are epoch milliseconds and
are embedded as `Int` (exact on the integral values the code manipulates);
`json.Unmarshal` of a response body into `map[string]interface{}` is passed in
as its outcome, an `Except String Jmap`, alongside the raw body string; the
HTTP client is abstracted as a `TransportEnv` record of the outcomes of
`http.NewRequest`, `client.Do` and `ioutil.ReadAll`; Go runtime panics (nil
slice indexing, failed type assertions, nil pointer dereference) are an
explicit `panicked` outcome.
-/

namespace Signalform

/-- Tolerance constant from the source (`OFFSET = 10000.0`), compensating for
SignalFx post-processing delay on `lastUpdated`. -/
def OFFSET : Int := 10000

/-- Base chart endpoint constant from the source. -/
def CHART_API_URL : String := "https://api.signalfx.com/v2/chart"

/-- JSON values as decoded by `json.Unmarshal` into `map[string]interface{}`:
numbers arrive as `float64` (embedded as `Int`), strings, booleans, null,
arrays and nested objects. -/
inductive JsonVal where
  | jnum (n : Int)
  | jstr (s : String)
  | jbool (b : Bool)
  | jnull
  | jarr (xs : List JsonVal)
  | jobj (fields : List (String × JsonVal))

/-- A decoded top-level JSON object (Go `map[string]interface{}`), with field
lookup by key. -/
abbrev Jmap := List (String × JsonVal)

/-- The fields of the terraform state handle (`*schema.ResourceData`) that the
lifecycle operations touch: the identifier (`d.SetId`), the `name`, `synced`
and `last_updated` fields, plus `other`, a type parameter standing for every
remaining field of the resource. -/
structure LocalState (α : Type) where
  id : String
  name : String
  synced : Bool
  last_updated : Int
  other : α

/-- Outcome of a lifecycle operation on a state handle that is mutated in
place: normal `nil` return, an error return, or a Go runtime panic. In every
case the final state of the handle at that moment is carried alongside. -/
inductive OpResult (σ : Type) where
  | ok (st : σ)
  | err (msg : String) (st : σ)
  | panicked (st : σ)

/-- Final state of the handle after an operation, whatever the outcome. -/
def OpResult.state {σ : Type} : OpResult σ → σ
  | .ok st => st
  | .err _ st => st
  | .panicked st => st

/-- Go-style test that `hay` starts with `needle`, over character lists. -/
def startsWithL : List Char → List Char → Bool
  | [], _ => true
  | _ :: _, [] => false
  | n :: ns, h :: hs => n == h && startsWithL ns hs

/-- Scan for `needle` as a contiguous substring of the second argument,
modelling Go `strings.Contains`. -/
def containsAux (needle : List Char) : List Char → Bool
  | [] => needle.isEmpty
  | c :: t => startsWithL needle (c :: t) || containsAux needle t

/-- Go `strings.Contains s sub`. -/
def strContains (s sub : String) : Bool := containsAux sub.toList s.toList

/-- Declarative reading of substring containment: `sub` occurs contiguously
inside `s`. -/
def StrContains (s sub : String) : Prop :=
  ∃ a b, s.toList = a ++ sub.toList ++ b

/-- Error text of `resourceRead` when `json.Unmarshal` fails. -/
def readUnmarshalMsg (name e : String) : String :=
  s!"Failed unmarshaling for the resource {name} during read: {e}"

/-- Error text of `resourceRead` on an unexpected status. -/
def readUpstreamMsg (name : String) (status : Int) (body : String) : String :=
  s!"For the resource {name} SignalFx returned status {status}: \n{body}"

/-- Error text of `resourceCreate` when `json.Unmarshal` fails. -/
def createUnmarshalMsg (name e : String) : String :=
  s!"Failed unmarshaling for the resource {name} during creation: {e}"

/-- Error text of `resourceCreate` on an unexpected status. -/
def createUpstreamMsg (name : String) (status : Int) (body : String) : String :=
  s!"For the resource {name} SignalFx returned status {status}: \n{body}"

/-- Error text of `resourceDelete` on a transport error (note the double
space, as in the source format string). -/
def deleteTransportMsg (name e : String) : String :=
  s!"Failed deleting resource  {name}: {e}"

/-- Error text of `resourceDelete` on an unexpected status (double space as in
the source format string). -/
def deleteUpstreamMsg (name : String) (status : Int) (body : String) : String :=
  s!"For the resource  {name} SignalFx returned status {status}: \n{body}"

/-- Embedding of `resourceRead`. Inputs: the status code and raw body returned
by `sendRequest` (on a transport failure the source ignores the error value
and sees status `-1` with a nil body, embedded as `""`), the outcome `parsed`
of `json.Unmarshal` on that body, and the state handle. On status 200 the
source reads `mapped_resp["lastUpdated"].(float64)` — a failed type assertion
(missing key or non-number value) is a panic — and flags drift when the
remote value strictly exceeds `last_updated + OFFSET`. On any other status it
clears the identifier when the body contains `"Resource not found"`, and
errors otherwise. -/
def resourceRead {α : Type} (status : Int) (rawBody : String)
    (parsed : Except String Jmap) (st : LocalState α) : OpResult (LocalState α) :=
  if status = 200 then
    match parsed with
    | .error e => .err (readUnmarshalMsg st.name e) st
    | .ok m =>
      match m.lookup "lastUpdated" with
      | some (JsonVal.jnum r) =>
        if r > st.last_updated + OFFSET then
          .ok { st with synced := false, last_updated := r }
        else
          .ok st
      | _ => .panicked st
  else
    if strContains rawBody "Resource not found" then
      .ok { st with id := "" }
    else
      .err (readUpstreamMsg st.name status rawBody) st

/-- Embedding of `resourceCreate`. On status 200 the source decodes the body,
then runs `d.SetId(mapped_resp["id"].(string))` and
`d.Set("last_updated", mapped_resp["lastUpdated"].(float64))` — each type
assertion panics when the field is absent or of the wrong type, leaving the
mutations already performed in place — and finally sets `synced := true`. On
any other status it returns the upstream error without touching the state. -/
def resourceCreate {α : Type} (status : Int) (rawBody : String)
    (parsed : Except String Jmap) (st : LocalState α) : OpResult (LocalState α) :=
  if status = 200 then
    match parsed with
    | .error e => .err (createUnmarshalMsg st.name e) st
    | .ok m =>
      match m.lookup "id" with
      | some (JsonVal.jstr i) =>
        match m.lookup "lastUpdated" with
        | some (JsonVal.jnum lu) =>
          .ok { st with id := i, last_updated := lu, synced := true }
        | _ => .panicked { st with id := i }
      | _ => .panicked st
  else
    .err (createUpstreamMsg st.name status rawBody) st

/-- Embedding of `resourceDelete`. Inputs: status, raw body and transport
error as returned by `sendRequest`. A transport error fails immediately; then
any status below 400, or exactly 404, clears the identifier and succeeds; any
other status errors with the upstream message, leaving the state intact. -/
def resourceDelete {α : Type} (status : Int) (rawBody : String)
    (transportErr : Option String) (st : LocalState α) : OpResult (LocalState α) :=
  match transportErr with
  | some e => .err (deleteTransportMsg st.name e) st
  | none =>
    if status < 400 ∨ status = 404 then
      .ok { st with id := "" }
    else
      .err (deleteUpstreamMsg st.name status rawBody) st

/-- Outcomes of the three effectful steps inside `sendRequest`:
`http.NewRequest` (an error leaves the request pointer nil), `client.Do`, and
`ioutil.ReadAll` on the response body, together with the response status and
body on success. -/
structure TransportEnv where
  newReqErr : Option String
  doErr : Option String
  status : Int
  readErr : Option String
  body : String

/-- Result of `sendRequest`: either a Go runtime panic, or the triple of
status code, optional body and optional error that the function returns. -/
inductive SendResult where
  | panicked
  | res (status : Int) (body : Option String) (err : Option String)

/-- Embedding of `sendRequest`. The source binds the error of
`http.NewRequest` but never checks it before calling `req.Header.Add`, so a
failed request construction dereferences a nil pointer and panics. A
`client.Do` error returns the sentinel status `-1` with no body; a body-read
error returns the actual status with no body; otherwise the status and body
are returned with no error. -/
def sendRequest (method : String) (env : TransportEnv) : SendResult :=
  match env.newReqErr with
  | some _ => .panicked
  | none =>
    match env.doErr with
    | some e =>
      .res (-1) none (some s!"Failed sending {method} request to Signalfx: {e}")
    | none =>
      match env.readErr with
      | some e =>
        .res env.status none
          (some s!"Failed reading response body from {method} request: {e}")
      | none => .res env.status (some env.body) none

/-- Unit characters accepted by the character class `[mhdw]` of the two
relative-time regular expressions in the source. -/
def isUnitChar (c : Char) : Bool :=
  c == 'm' || c == 'h' || c == 'd' || c == 'w'

/-- Match of the regular expression `-([0-9]+)([mhdw])` anchored at the head
of the character list, returning the two capture groups. Since no digit is a
unit character, the greedy digit run is the unique candidate for the first
group, so no backtracking is needed. -/
def matchAt (cs : List Char) : Option (List Char × Char) :=
  match cs with
  | [] => none
  | c :: rest =>
    if c = '-' then
      if (rest.takeWhile Char.isDigit).isEmpty then none
      else
        match rest.drop (rest.takeWhile Char.isDigit).length with
        | [] => none
        | u :: _ =>
          if isUnitChar u then some (rest.takeWhile Char.isDigit, u) else none
    else none

/-- Leftmost match of `-([0-9]+)([mhdw])` in the list: the result of Go
`regexp.FindStringSubmatch`, reduced to its two capture groups. `none` is the
nil slice Go returns when the expression does not match anywhere. -/
def findSubmatch : List Char → Option (List Char × Char)
  | [] => none
  | c :: rest =>
    match matchAt (c :: rest) with
    | some g => some g
    | none => findSubmatch rest

/-- Numeric value of a run of decimal digit characters. -/
def digitsVal (ds : List Char) : Nat :=
  ds.foldl (fun a c => a * 10 + (c.toNat - '0'.toNat)) 0

/-- Largest value of the 64-bit Go `int` (the build targets of this provider
are 64-bit platforms). -/
def INT64_MAX : Int := 2 ^ 63 - 1

/-- Go `strconv.Atoi` restricted to the nonempty all-digit strings produced by
the first capture group: the parsed value, or `none` for the out-of-range
error Atoi reports when the value exceeds the 64-bit integer range. -/
def goAtoi (ds : List Char) : Option Int :=
  if (digitsVal ds : Int) ≤ INT64_MAX then some (digitsVal ds : Int) else none

/-- Two's-complement wraparound of 64-bit signed multiplication, the defined
overflow behaviour of Go integer arithmetic. -/
def wrap64 (n : Int) : Int :=
  (n + 2 ^ 63) % 2 ^ 64 - 2 ^ 63

/-- Unit multiplier switch of `fromRangeToMilliSeconds`, including the
`default` branch that yields multiplier 1. -/
def unitMult (u : Char) : Int :=
  if u = 'm' then 60 * 1000
  else if u = 'h' then 60 * 60 * 1000
  else if u = 'd' then 24 * 60 * 60 * 1000
  else if u = 'w' then 7 * 24 * 60 * 60 * 1000
  else 1

/-- Result of `fromRangeToMilliSeconds`: a Go runtime panic, a successful
value, or the `(-1, err)` pair returned when `strconv.Atoi` fails. -/
inductive ParseResult where
  | panicked
  | ok (n : Int)
  | err (n : Int) (msg : String)
deriving DecidableEq

/-- Embedding of `fromRangeToMilliSeconds`. The source computes
`ss := r.FindStringSubmatch(timeRange)` and immediately reads `ss[2]`: when
the expression does not match, `ss` is nil and the indexing panics. On a
match, the unit switch picks the multiplier, `strconv.Atoi` parses the digit
group (an out-of-range value returns `(-1, err)`), and the product is
returned with 64-bit wraparound. -/
def fromRangeToMilliSeconds (timeRange : String) : ParseResult :=
  match findSubmatch timeRange.toList with
  | none => .panicked
  | some (ds, u) =>
    match goAtoi ds with
    | none => .err (-1) "strconv.Atoi: value out of range"
    | some v => .ok (wrap64 (v * unitMult u))

/-- Go `r.MatchString` for the validator expression `-([0-9]+)[mhdw]`, whose
matches coincide with those of `-([0-9]+)([mhdw])`. -/
def relTimeMatch (s : String) : Bool :=
  (findSubmatch s.toList).isSome

/-- Error text of `validateSignalfxRelativeTime`. -/
def relTimeErrMsg (s : String) : String :=
  s!"{s} not allowed. Please use milliseconds from epoch or SignalFx time syntax (e.g. -5m, -1h)"

/-- Embedding of `validateSignalfxRelativeTime`: the pair of the warning list
(always empty in the source) and the error list, which holds exactly one
message when the value does not match the relative-time expression. -/
def validateSignalfxRelativeTime (s : String) : List String × List String :=
  if relTimeMatch s then ([], []) else ([], [relTimeErrMsg s])

/-- Declarative reading of a string containing a match of
`-([0-9]+)[mhdw]`: somewhere in it, a minus sign, a nonempty digit run, and a
unit character occur contiguously. -/
def RelTimeShape (s : String) : Prop :=
  ∃ a ds u b, s.toList = a ++ '-' :: (ds ++ u :: b) ∧ ds ≠ [] ∧
    (∀ c ∈ ds, c.isDigit = true) ∧ isUnitChar u = true

/-- The part of the `color_scale` option block that `getColorScaleOptions`
reads and writes: the integer threshold list and the `inverted` flag. -/
structure ColorScale where
  thresholds : List Int
  inverted : Bool
deriving DecidableEq

/-- Descending integer sort, the effect of
`sort.Sort(sort.Reverse(sort.IntSlice(thresholds)))`: on integers any
descending reordering of a list is unique, so insertion sort coincides
extensionally with the source's unstable sort. -/
def sortDesc (l : List Int) : List Int :=
  l.insertionSort (· ≥ ·)

/-- Embedding of `getColorScaleOptions`: sort the thresholds descending and
copy the `inverted` flag. (The source first indexes the one-element
`color_scale` set; that unvalidated precondition is outside this model, which
starts from the extracted options.) -/
def getColorScaleOptions (opts : ColorScale) : ColorScale :=
  { thresholds := sortDesc opts.thresholds, inverted := opts.inverted }

/-- A concrete example state over a trivial remainder type, used by witness
and counterexample theorems. -/
def exSt1 : LocalState Unit :=
  { id := "chart-1", name := "mychart", synced := true, last_updated := 1000, other := () }

/-- A second concrete example state. -/
def exSt2 : LocalState Unit :=
  { id := "chart-2", name := "otherchart", synced := true, last_updated := 0, other := () }

/-- A third concrete example state. -/
def exSt3 : LocalState Unit :=
  { id := "chart-3", name := "readchart", synced := false, last_updated := 42, other := () }

/-- A fourth concrete example state, whose identifier must survive the
counterexample run. -/
def exSt4 : LocalState Unit :=
  { id := "keep-me", name := "chart4", synced := true, last_updated := 7, other := () }

theorem startsWithL_iff (n h : List Char) :
    startsWithL n h = true ↔ ∃ t, h = n ++ t := by
  induction n generalizing h with
  | nil => simp [startsWithL]
  | cons c ns ih =>
    cases h with
    | nil => simp [startsWithL]
    | cons d hs =>
      rw [startsWithL, Bool.and_eq_true, beq_iff_eq, ih]
      constructor
      · rintro ⟨rfl, t, rfl⟩
        exact ⟨t, rfl⟩
      · rintro ⟨t, ht⟩
        rw [List.cons_append] at ht
        injection ht with h1 h2
        exact ⟨h1.symm, t, h2⟩

theorem containsAux_iff (n h : List Char) :
    containsAux n h = true ↔ ∃ a b, h = a ++ n ++ b := by
  induction h with
  | nil =>
    rw [containsAux, List.isEmpty_iff]
    constructor
    · rintro rfl
      exact ⟨[], [], rfl⟩
    · rintro ⟨a, b, hab⟩
      have h2 := hab.symm
      simp only [List.append_eq_nil] at h2
      exact h2.1.2
  | cons c t ih =>
    rw [containsAux, Bool.or_eq_true, startsWithL_iff, ih]
    constructor
    · rintro (⟨tl, htl⟩ | ⟨a, b, hab⟩)
      · exact ⟨[], tl, by simpa using htl⟩
      · exact ⟨c :: a, b, by simp [hab]⟩
    · rintro ⟨a, b, hab⟩
      cases a with
      | nil =>
        exact Or.inl ⟨b, by simpa using hab⟩
      | cons x xs =>
        rw [List.cons_append, List.cons_append] at hab
        injection hab with h1 h2
        exact Or.inr ⟨xs, b, h2⟩

theorem strContains_iff (s sub : String) :
    strContains s sub = true ↔ StrContains s sub := by
  rw [strContains, StrContains]
  exact containsAux_iff _ _

theorem isUnitChar_cases {u : Char} (h : isUnitChar u = true) :
    u = 'm' ∨ u = 'h' ∨ u = 'd' ∨ u = 'w' := by
  simp only [isUnitChar, Bool.or_eq_true, beq_iff_eq] at h
  tauto

theorem isUnitChar_not_digit {u : Char} (h : isUnitChar u = true) :
    u.isDigit = false := by
  rcases isUnitChar_cases h with rfl | rfl | rfl | rfl <;> decide

theorem takeWhile_eq_of_append (p : Char → Bool) (ds : List Char) (u : Char)
    (b : List Char) (hds : ∀ c ∈ ds, p c = true) (hu : p u = false) :
    ((ds ++ u :: b).takeWhile p) = ds := by
  induction ds with
  | nil => simp [List.takeWhile_cons, hu]
  | cons c tl ih =>
    have hc : p c = true := hds c (by simp)
    simp [List.takeWhile_cons, hc, ih (fun x hx => hds x (by simp [hx]))]

theorem take_takeWhile_length (p : Char → Bool) (l : List Char) :
    l.take (l.takeWhile p).length = l.takeWhile p := by
  induction l with
  | nil => rfl
  | cons c t ih =>
    by_cases h : p c <;>
      simp [List.takeWhile_cons, h, List.take_succ_cons, ih]

theorem matchAt_sound {cs ds : List Char} {u : Char}
    (h : matchAt cs = some (ds, u)) :
    ∃ b, cs = '-' :: (ds ++ u :: b) ∧ ds ≠ [] ∧
      (∀ c ∈ ds, c.isDigit = true) ∧ isUnitChar u = true := by
  unfold matchAt at h
  split at h
  · exact absurd h (by simp)
  next c rest =>
    split at h
    next hc =>
      subst hc
      split at h
      next he => exact absurd h (by simp)
      next he =>
        split at h
        next hd => exact absurd h (by simp)
        next v tail hd =>
          split at h
          next hu =>
            simp only [Option.some.injEq, Prod.mk.injEq] at h
            obtain ⟨hds, hv⟩ := h
            subst hds
            subst hv
            refine ⟨tail, ?_, ?_, ?_, hu⟩
            · have hsplit := List.take_append_drop
                (rest.takeWhile Char.isDigit).length rest
              rw [take_takeWhile_length, hd] at hsplit
              conv_lhs => rw [← hsplit]
            · intro hne
              rw [hne] at he
              exact he rfl
            · intro x hx
              exact List.mem_takeWhile_imp hx
          next hu => exact absurd h (by simp)
    next hc => exact absurd h (by simp)

theorem matchAt_complete (ds : List Char) (u : Char) (b : List Char)
    (h1 : ds ≠ []) (h2 : ∀ c ∈ ds, c.isDigit = true) (h3 : isUnitChar u = true) :
    matchAt ('-' :: (ds ++ u :: b)) = some (ds, u) := by
  have htw : ((ds ++ u :: b).takeWhile Char.isDigit) = ds :=
    takeWhile_eq_of_append Char.isDigit ds u b h2 (isUnitChar_not_digit h3)
  have hne : ¬(((ds ++ u :: b).takeWhile Char.isDigit).isEmpty = true) := by
    rw [htw, List.isEmpty_iff]
    exact h1
  simp only [matchAt, if_true]
  rw [if_neg hne, htw, List.drop_left]
  show (if isUnitChar u = true then some (ds, u) else none) = some (ds, u)
  rw [if_pos h3]

theorem findSubmatch_sound {cs ds : List Char} {u : Char}
    (h : findSubmatch cs = some (ds, u)) :
    ∃ a b, cs = a ++ '-' :: (ds ++ u :: b) ∧ ds ≠ [] ∧
      (∀ c ∈ ds, c.isDigit = true) ∧ isUnitChar u = true := by
  induction cs with
  | nil => simp [findSubmatch] at h
  | cons c rest ih =>
    rw [findSubmatch] at h
    cases hm : matchAt (c :: rest) with
    | none =>
      rw [hm] at h
      obtain ⟨a, b, hcs, hrest⟩ := ih h
      refine ⟨c :: a, b, ?_, hrest⟩
      rw [List.cons_append, ← hcs]
    | some g =>
      rw [hm] at h
      have h2 : some g = some (ds, u) := h
      have hg : g = (ds, u) := by injection h2
      subst hg
      obtain ⟨b, hb, hne, hdig, hu⟩ := matchAt_sound hm
      exact ⟨[], b, hb, hne, hdig, hu⟩

theorem findSubmatch_isSome (a ds : List Char) (u : Char) (b : List Char)
    (h1 : ds ≠ []) (h2 : ∀ c ∈ ds, c.isDigit = true) (h3 : isUnitChar u = true) :
    (findSubmatch (a ++ '-' :: (ds ++ u :: b))).isSome = true := by
  induction a with
  | nil =>
    rw [List.nil_append, findSubmatch, matchAt_complete ds u b h1 h2 h3]
    rfl
  | cons c t ih =>
    rw [List.cons_append, findSubmatch]
    cases matchAt (c :: (t ++ '-' :: (ds ++ u :: b))) with
    | some _ => rfl
    | none => exact ih

theorem relTimeMatch_iff (s : String) : relTimeMatch s = true ↔ RelTimeShape s := by
  rw [relTimeMatch, Option.isSome_iff_exists]
  constructor
  · rintro ⟨⟨ds, u⟩, h⟩
    obtain ⟨a, b, hcs, hne, hdig, hu⟩ := findSubmatch_sound h
    exact ⟨a, ds, u, b, hcs, hne, hdig, hu⟩
  · rintro ⟨a, ds, u, b, hcs, hne, hdig, hu⟩
    have hs := findSubmatch_isSome a ds u b hne hdig hu
    rw [hcs]
    exact Option.isSome_iff_exists.mp hs

theorem wrap64_eq_self {n : Int} (h0 : 0 ≤ n) (h1 : n ≤ INT64_MAX) :
    wrap64 n = n := by
  have hb : (INT64_MAX : Int) = 2 ^ 63 - 1 := rfl
  have hmod : (n + 2 ^ 63) % 2 ^ 64 = n + 2 ^ 63 := by
    apply Int.emod_eq_of_lt
    · have : (0 : Int) ≤ 2 ^ 63 := by positivity
      linarith
    · have h2 : (2 : Int) ^ 64 = 2 ^ 63 + 2 ^ 63 := by norm_num
      rw [hb] at h1
      linarith
  rw [wrap64, hmod]
  ring

/-- C1: on an HTTP 200 Read whose decoded body carries a numeric
`lastUpdated` field, the local state is updated to `synced = false` and the
remote timestamp exactly when the remote value strictly exceeds
`last_updated + OFFSET`; when it equals that bound or is smaller the state is
returned unchanged — the boundary is exclusive. -/
theorem resourceRead_drift {α : Type} (r : Int) (rawBody : String) (m : Jmap)
    (st : LocalState α) (hm : m.lookup "lastUpdated" = some (JsonVal.jnum r)) :
    (st.last_updated + OFFSET < r →
      resourceRead 200 rawBody (Except.ok m) st =
        OpResult.ok { st with synced := false, last_updated := r }) ∧
    (r ≤ st.last_updated + OFFSET →
      resourceRead 200 rawBody (Except.ok m) st = OpResult.ok st) := by
  constructor
  · intro hlt
    simp only [resourceRead, hm, if_true]
    rw [if_pos hlt]
  · intro hle
    simp only [resourceRead, hm, if_true]
    rw [if_neg (not_lt.mpr hle)]

/-- C1 witness: with local `last_updated = 1000` and `OFFSET = 10000`, a
remote `lastUpdated` of 11001 flips `synced` to false and stores 11001, while
a remote value of exactly 11000 leaves the state untouched. -/
theorem resourceRead_drift_witness :
    resourceRead 200 "" (Except.ok [("lastUpdated", JsonVal.jnum 11001)]) exSt1 =
      OpResult.ok { exSt1 with synced := false, last_updated := 11001 } ∧
    resourceRead 200 "" (Except.ok [("lastUpdated", JsonVal.jnum 11000)]) exSt1 =
      OpResult.ok exSt1 := by
  constructor
  · exact (resourceRead_drift 11001 "" [("lastUpdated", JsonVal.jnum 11001)]
      exSt1 rfl).1 (by decide)
  · exact (resourceRead_drift 11000 "" [("lastUpdated", JsonVal.jnum 11000)]
      exSt1 rfl).2 (by decide)

/-- C2: `fromRangeToMilliSeconds` does not guard the result of
`FindStringSubmatch` before indexing the capture groups, so on the
non-matching input `"abc"` the indexing of the nil submatch slice is a
runtime panic instead of the propagated parse error the specification
requires. -/
theorem fromRangeToMilliSeconds_nonmatching_panics :
    fromRangeToMilliSeconds "abc" = ParseResult.panicked := rfl

/-- C3 counterexample: on `"-5s"` the expression `-([0-9]+)([mhdw])` does not
match — a unit character outside m, h, d, w never reaches the multiplier
switch — so the function panics on the nil submatch slice rather than
producing the claimed default-multiplier value 5. -/
theorem fromRangeToMilliSeconds_unknown_unit :
    fromRangeToMilliSeconds "-5s" = ParseResult.panicked ∧
      fromRangeToMilliSeconds "-5s" ≠ ParseResult.ok 5 := by
  exact ⟨rfl, by decide⟩

/-- C3 (amended): whenever the expression matches, the unit capture group is
necessarily one of m, h, d, w — the `default` multiplier branch of the switch
is unreachable — and, provided the magnitude and the product stay within the
64-bit integer range, the result is exactly the magnitude times the table
multiplier m→60000, h→3600000, d→86400000, w→604800000. -/
theorem fromRange_matched (s : String) (ds : List Char) (u : Char)
    (h : findSubmatch s.toList = some (ds, u))
    (h1 : (digitsVal ds : Int) ≤ INT64_MAX)
    (h2 : (digitsVal ds : Int) * unitMult u ≤ INT64_MAX) :
    (u = 'm' ∨ u = 'h' ∨ u = 'd' ∨ u = 'w') ∧
    fromRangeToMilliSeconds s = ParseResult.ok ((digitsVal ds : Int) * unitMult u) ∧
    unitMult 'm' = 60000 ∧ unitMult 'h' = 3600000 ∧
    unitMult 'd' = 86400000 ∧ unitMult 'w' = 604800000 := by
  obtain ⟨a, b, hcs, hne, hdig, hu⟩ := findSubmatch_sound h
  have hcases := isUnitChar_cases hu
  have hmult : 0 < unitMult u := by
    rcases hcases with rfl | rfl | rfl | rfl <;> decide
  refine ⟨hcases, ?_, by decide, by decide, by decide, by decide⟩
  rw [fromRangeToMilliSeconds, h]
  show (match goAtoi ds with
    | none => ParseResult.err (-1) "strconv.Atoi: value out of range"
    | some v => ParseResult.ok (wrap64 (v * unitMult u))) =
      ParseResult.ok ((digitsVal ds : Int) * unitMult u)
  rw [goAtoi, if_pos h1]
  show ParseResult.ok (wrap64 ((digitsVal ds : Int) * unitMult u)) =
    ParseResult.ok ((digitsVal ds : Int) * unitMult u)
  rw [wrap64_eq_self (mul_nonneg (Int.ofNat_nonneg _) (le_of_lt hmult)) h2]

/-- C3 witness: `"-5m"` parses to 300000 milliseconds. -/
theorem fromRange_matched_witness :
    fromRangeToMilliSeconds "-5m" = ParseResult.ok 300000 := by
  have h := fromRange_matched "-5m" ['5'] 'm' (by decide) (by decide) (by decide)
  have h3 : ((digitsVal ['5'] : Int)) * unitMult 'm' = 300000 := by decide
  rw [h3] at h
  exact h.2.1

/-- C4 counterexample: a Read over status 200 whose body is exactly the
marker text `"Resource not found"` (not valid JSON) does not clear the
identifier and does not succeed: the 200 branch is taken, unmarshaling fails,
and the operation returns an error with the state intact. So the marker is
not honoured "regardless of the status code". -/
theorem resourceRead_marker_on_200 :
    resourceRead 200 "Resource not found" (Except.error "invalid json") exSt4 =
      OpResult.err (readUnmarshalMsg exSt4.name "invalid json") exSt4 ∧
    exSt4.id = "keep-me" :=
  ⟨rfl, rfl⟩

/-- C4 (amended): on every non-200 Read response whose body contains the
substring "Resource not found" the local identifier is cleared and the
operation succeeds; every other non-200 response fails with the upstream
error carrying the resource name, the status code and the raw body. -/
theorem resourceRead_non200 {α : Type} (status : Int) (rawBody : String)
    (parsed : Except String Jmap) (st : LocalState α) (h : status ≠ 200) :
    (StrContains rawBody "Resource not found" →
      resourceRead status rawBody parsed st = OpResult.ok { st with id := "" }) ∧
    (¬ StrContains rawBody "Resource not found" →
      resourceRead status rawBody parsed st =
        OpResult.err (readUpstreamMsg st.name status rawBody) st) := by
  constructor
  · intro hc
    simp only [resourceRead]
    rw [if_neg h, if_pos ((strContains_iff rawBody "Resource not found").mpr hc)]
  · intro hc
    simp only [resourceRead]
    rw [if_neg h,
      if_neg (fun hb => hc ((strContains_iff rawBody "Resource not found").mp hb))]

/-- C4 witness: a 404 whose body is the marker text clears the identifier and
succeeds. -/
theorem resourceRead_non200_witness :
    resourceRead 404 "Resource not found" (Except.error "x") exSt3 =
      OpResult.ok { exSt3 with id := "" } := by
  refine (resourceRead_non200 404 "Resource not found" (Except.error "x") exSt3
    (by decide)).1 ?_
  exact ⟨[], [], by simp⟩

/-- C5: Delete fails immediately with the transport error message when the
send failed; with no transport error it clears the identifier and succeeds on
every status below 400 and on 404, and on any other status at or above 400 it
fails with the upstream error, leaving the state (identifier included)
untouched. -/
theorem resourceDelete_spec {α : Type} (status : Int) (rawBody : String)
    (e : Option String) (st : LocalState α) :
    (∀ msg, e = some msg →
      resourceDelete status rawBody e st =
        OpResult.err (deleteTransportMsg st.name msg) st) ∧
    (e = none → status < 400 ∨ status = 404 →
      resourceDelete status rawBody e st = OpResult.ok { st with id := "" }) ∧
    (e = none → 400 ≤ status → status ≠ 404 →
      resourceDelete status rawBody e st =
        OpResult.err (deleteUpstreamMsg st.name status rawBody) st) := by
  refine ⟨?_, ?_, ?_⟩
  · rintro msg rfl
    rfl
  · rintro rfl hs
    show (if status < 400 ∨ status = 404 then _ else _) = _
    rw [if_pos hs]
  · rintro rfl h4 hne
    show (if status < 400 ∨ status = 404 then _ else _) = _
    have hcond : ¬(status < 400 ∨ status = 404) := by
      rintro (hlt | heq)
      · omega
      · exact hne heq
    rw [if_neg hcond]

/-- C5 witness: Delete on 404 clears the identifier and succeeds; Delete on
500 returns the upstream error and leaves the state untouched. -/
theorem resourceDelete_spec_witness :
    resourceDelete 404 "" none exSt2 = OpResult.ok { exSt2 with id := "" } ∧
    resourceDelete 500 "oops" none exSt2 =
      OpResult.err (deleteUpstreamMsg exSt2.name 500 "oops") exSt2 := by
  constructor
  · exact (resourceDelete_spec 404 "" none exSt2).2.1 rfl (Or.inr rfl)
  · exact (resourceDelete_spec 500 "oops" none exSt2).2.2 rfl (by decide) (by decide)

/-- C6: on an HTTP 200 Create whose body is valid JSON but lacks the expected
fields — here the empty object — the unchecked type assertion
`mapped_resp["id"].(string)` is a runtime panic, not the DecodeError the
specification requires. -/
theorem resourceCreate_missing_fields_panics :
    resourceCreate 200 "\x7b\x7d" (Except.ok []) exSt2 =
      OpResult.panicked exSt2 := rfl

/-- C7: `sendRequest` binds the error of `http.NewRequest` but never checks
it before calling `req.Header.Add`, so a request whose construction fails
(malformed URL) dereferences a nil pointer and panics instead of returning
the sentinel `(-1, nil, error)` triple the specification requires. -/
theorem sendRequest_badrequest_panics :
    sendRequest "GET"
      { newReqErr := some "parse error", doErr := none, status := 0,
        readErr := none, body := "" } = SendResult.panicked := rfl

/-- C8: the 200-path of Read only ever writes `synced` and `last_updated`:
whatever the decode outcome and body, the identifier, the name and every
other field of the local state are unchanged in the final state, on every
outcome (success, error or panic). -/
theorem resourceRead_frame {α : Type} (rawBody : String)
    (parsed : Except String Jmap) (st : LocalState α) :
    ((resourceRead 200 rawBody parsed st).state).id = st.id ∧
    ((resourceRead 200 rawBody parsed st).state).name = st.name ∧
    ((resourceRead 200 rawBody parsed st).state).other = st.other := by
  rcases parsed with e | m
  · exact ⟨rfl, rfl, rfl⟩
  · simp only [resourceRead, if_true]
    split
    · split
      · exact ⟨rfl, rfl, rfl⟩
      · exact ⟨rfl, rfl, rfl⟩
    · exact ⟨rfl, rfl, rfl⟩

/-- C9: the color-scale builder returns the thresholds as a descending-sorted
permutation of the input with the `inverted` flag copied unchanged; it maps
`[3,1,2]` with `inverted = false` to `[3,2,1]` with `inverted = false`, and
re-sorting is idempotent: on an already-descending list the builder is the
identity. -/
theorem getColorScaleOptions_spec (opts : ColorScale) :
    ((getColorScaleOptions opts).thresholds).Sorted (· ≥ ·) ∧
    ((getColorScaleOptions opts).thresholds).Perm opts.thresholds ∧
    (getColorScaleOptions opts).inverted = opts.inverted ∧
    (opts.thresholds.Sorted (· ≥ ·) → getColorScaleOptions opts = opts) ∧
    getColorScaleOptions { thresholds := [3, 1, 2], inverted := false } =
      { thresholds := [3, 2, 1], inverted := false } := by
  refine ⟨List.sorted_insertionSort _ _, List.perm_insertionSort _ _, rfl, ?_, by decide⟩
  intro hs
  have he : sortDesc opts.thresholds = opts.thresholds := hs.insertionSort_eq
  rw [getColorScaleOptions, he]

/-- C9 witness: the builder leaves the already-descending input `[3,2,1]`
unchanged. -/
theorem getColorScaleOptions_spec_witness :
    getColorScaleOptions { thresholds := [3, 2, 1], inverted := false } =
      { thresholds := [3, 2, 1], inverted := false } :=
  (getColorScaleOptions_spec { thresholds := [3, 2, 1], inverted := false }).2.2.2.1
    (by decide)

/-- C10: the relative-time validator returns no errors exactly when the value
contains a match of `-\d+[mhdw]` — a minus sign followed by a nonempty digit
run and a unit character — and otherwise returns exactly the one error
message describing both accepted forms. -/
theorem validateSignalfxRelativeTime_spec (s : String) :
    ((validateSignalfxRelativeTime s).2 = [] ↔ RelTimeShape s) ∧
    ((validateSignalfxRelativeTime s).2 = [] ∨
      (validateSignalfxRelativeTime s).2 = [relTimeErrMsg s]) := by
  rw [validateSignalfxRelativeTime]
  by_cases h : relTimeMatch s = true
  · rw [if_pos h]
    exact ⟨⟨fun _ => (relTimeMatch_iff s).mp h, fun _ => rfl⟩, Or.inl rfl⟩
  · rw [if_neg h]
    refine ⟨⟨fun hh => absurd hh (by simp), ?_⟩, Or.inr rfl⟩
    intro hsh
    exact absurd ((relTimeMatch_iff s).mpr hsh) h

end Signalform
